import Mathlib

/-!
Verification of the bevy-game gameplay code.

The game's per-frame systems (`src/mymain.rs`, `src/game/movement.rs`) are
shallowly embedded here.  `f32` arithmetic is modelled by real numbers; every
rotation in the game is about the `+Z` axis, so a `Transform`'s quaternion is
represented by its rotation angle in radians.  Bevy's single-match queries
(`Query::single`, `Query::single_mut`), which panic unless exactly one entity
matches, are modelled by an `Option`-returning selection where `none` stands
for the panic.  `glam`'s `Vec2::normalize`, which is undefined (non-finite) on
a zero-length vector, is likewise modelled with `none` for the undefined case.
-/

open scoped Classical

namespace BevyGame

/-- A 2D vector with real components, modelling `glam::Vec2`. -/
structure Vec2 where
  x : ℝ
  y : ℝ

/-- A 3D vector with real components, modelling `glam::Vec3`. -/
structure Vec3 where
  x : ℝ
  y : ℝ
  z : ℝ

/-- Component-wise subtraction of 2D vectors. -/
def Vec2.sub (a b : Vec2) : Vec2 := ⟨a.x - b.x, a.y - b.y⟩

/-- Dot product of 2D vectors (`glam::Vec2::dot`). -/
def Vec2.dot (a b : Vec2) : ℝ := a.x * b.x + a.y * b.y

/-- Euclidean length of a 2D vector (`glam::Vec2::length`). -/
noncomputable def Vec2.length (v : Vec2) : ℝ := Real.sqrt (v.x ^ 2 + v.y ^ 2)

/-- Projection to the XY plane (`Vec3Swizzles::xy`). -/
def Vec3.xy (v : Vec3) : Vec2 := ⟨v.x, v.y⟩

/-- Component-wise addition of 3D vectors (`+=` on translations). -/
def Vec3.add (a b : Vec3) : Vec3 := ⟨a.x + b.x, a.y + b.y, a.z + b.z⟩

/-- Component-wise minimum (`glam::Vec3::min`). -/
noncomputable def Vec3.vmin (a b : Vec3) : Vec3 := ⟨min a.x b.x, min a.y b.y, min a.z b.z⟩

/-- Component-wise maximum (`glam::Vec3::max`). -/
noncomputable def Vec3.vmax (a b : Vec3) : Vec3 := ⟨max a.x b.x, max a.y b.y, max a.z b.z⟩

/-- Component-wise negation (unary `-` on `glam::Vec3`). -/
def Vec3.neg (a : Vec3) : Vec3 := ⟨-a.x, -a.y, -a.z⟩

/-- Euclidean distance between 3D points (`glam::Vec3::distance`). -/
noncomputable def Vec3.distance (a b : Vec3) : ℝ :=
  Real.sqrt ((a.x - b.x) ^ 2 + (a.y - b.y) ^ 2 + (a.z - b.z) ^ 2)

/-- Bevy `Transform`, restricted to what this game uses: a translation and a
rotation about `+Z` stored as an angle in radians (the source stores a
quaternion, but every rotation the game performs is about `+Z`). -/
structure Transform where
  translation : Vec3
  rotation : ℝ

/-- Bevy `Transform::rotate_z`: compose the current rotation with a rotation
about `+Z` by `angle` radians. -/
def Transform.rotate_z (t : Transform) (angle : ℝ) : Transform :=
  { t with rotation := t.rotation + angle }

/-- The entity's forward vector: the stored rotation applied to `Vec3::Y`,
projected to 2D.  A rotation by `r` about `+Z` maps `(0,1)` to `(-sin r, cos r)`. -/
noncomputable def forward_vec (r : ℝ) : Vec2 := ⟨-Real.sin r, Real.cos r⟩

/-- The entity's right vector: the stored rotation applied to `Vec3::X`,
projected to 2D.  A rotation by `r` about `+Z` maps `(1,0)` to `(cos r, sin r)`. -/
noncomputable def right_vec (r : ℝ) : Vec2 := ⟨Real.cos r, Real.sin r⟩

/-- The `MovementController` component of `src/game/movement.rs`. -/
structure MovementController where
  movement_intent : ℝ
  rotation_intent : ℝ

/-- The `Movement` component of `src/game/movement.rs`. -/
structure Movement where
  movement_speed : ℝ
  rotation_speed : ℝ

/-- One per-entity step of `apply_movement` (`src/game/movement.rs`):
rotate about `+Z` by `rotation_intent * rotation_speed * dt`, then translate by
the new forward vector scaled by `movement_intent * movement_speed * dt`. -/
noncomputable def apply_movement (dt : ℝ) (controller : MovementController)
    (movement : Movement) (t : Transform) : Transform :=
  let t1 := t.rotate_z (controller.rotation_intent * movement.rotation_speed * dt)
  let movement_direction := forward_vec t1.rotation
  let movement_distance := controller.movement_intent * movement.movement_speed * dt
  { t1 with
    translation := t1.translation.add
      ⟨movement_direction.x * movement_distance, movement_direction.y * movement_distance, 0⟩ }

/-- The `BOUNDS` constant of `src/mymain.rs`. -/
def BOUNDS : Vec2 := ⟨1200, 640⟩

/-- The `Player` component of `src/mymain.rs`. -/
structure Player where
  movement_speed : ℝ
  rotation_speed : ℝ

/-- The `Health` component of `src/mymain.rs` (an `i32` value, modelled as `ℤ`;
the game only ever subtracts small constants, far from `i32` overflow). -/
structure Health where
  value : ℤ

/-- The `EnemyMove` component of `src/mymain.rs`. -/
structure EnemyMove where
  movement_speed : ℝ

/-- The `RotateToPlayer` component of `src/mymain.rs`. -/
structure RotateToPlayer where
  rotation_speed : ℝ

/-- The arrow-key state consumed by `player_movement_system`. -/
structure KeyState where
  arrow_left : Bool
  arrow_right : Bool
  arrow_up : Bool

/-- The bounds clamp shared by `player_movement_system` and
`enemy_movement_system`: `translation.min(extents).max(-extents)` with
`extents = BOUNDS / 2` extended by `z = 0`. -/
noncomputable def clamp_to_bounds (v : Vec3) : Vec3 :=
  let extents : Vec3 := ⟨BOUNDS.x / 2, BOUNDS.y / 2, 0⟩
  (v.vmin extents).vmax extents.neg

/-- The body of `player_movement_system` (`src/mymain.rs`) for the single
player entity: accumulate rotation/movement factors from the arrow keys,
rotate, translate along the new forward vector, then clamp to `BOUNDS / 2`. -/
noncomputable def player_movement_update (dt : ℝ) (keys : KeyState) (ship : Player)
    (t : Transform) : Transform :=
  let rotation_factor : ℝ :=
    (if keys.arrow_left then 1 else 0) + (if keys.arrow_right then -1 else 0)
  let movement_factor : ℝ := if keys.arrow_up then 1 else 0
  let t1 := t.rotate_z (rotation_factor * ship.rotation_speed * dt)
  let movement_direction := forward_vec t1.rotation
  let movement_distance := movement_factor * ship.movement_speed * dt
  let t2 : Transform :=
    { t1 with
      translation := t1.translation.add
        ⟨movement_direction.x * movement_distance, movement_direction.y * movement_distance, 0⟩ }
  { t2 with translation := clamp_to_bounds t2.translation }

/-- One per-enemy step of `enemy_movement_system` (`src/mymain.rs`): translate
along the current forward vector at `movement_speed`, then clamp to `BOUNDS / 2`. -/
noncomputable def enemy_movement_step (dt : ℝ) (enemy : EnemyMove) (t : Transform) : Transform :=
  let movement_direction := forward_vec t.rotation
  let movement_distance := enemy.movement_speed * dt
  let t1 : Transform :=
    { t with
      translation := t.translation.add
        ⟨movement_direction.x * movement_distance, movement_direction.y * movement_distance, 0⟩ }
  { t1 with translation := clamp_to_bounds t1.translation }

/-- Clamped positions always lie within `±BOUNDS/2` component-wise. -/
theorem clamp_to_bounds_mem (v : Vec3) :
    |(clamp_to_bounds v).x| ≤ 600 ∧ |(clamp_to_bounds v).y| ≤ 320 := by
  constructor <;>
    · simp only [clamp_to_bounds, Vec3.vmin, Vec3.vmax, Vec3.neg, BOUNDS, abs_le]
      constructor
      · norm_num [le_max_iff]
      · norm_num [max_le_iff, min_le_iff]

/-- C4: the Movement Integrator first advances the orientation by
`rotation_intent * rotation_speed * dt`, its position delta is exactly the new
forward vector scaled by `movement_intent * movement_speed * dt` (hence
proportional to `dt` and to the movement intent), and `dt = 0` leaves the
transform (position and orientation) unchanged. -/
theorem apply_movement_delta_proportional (dt : ℝ) (c : MovementController)
    (m : Movement) (t : Transform) :
    (apply_movement dt c m t).rotation = t.rotation + c.rotation_intent * m.rotation_speed * dt ∧
    (apply_movement dt c m t).translation.x = t.translation.x +
      (forward_vec (t.rotation + c.rotation_intent * m.rotation_speed * dt)).x *
        (c.movement_intent * m.movement_speed * dt) ∧
    (apply_movement dt c m t).translation.y = t.translation.y +
      (forward_vec (t.rotation + c.rotation_intent * m.rotation_speed * dt)).y *
        (c.movement_intent * m.movement_speed * dt) ∧
    (apply_movement dt c m t).translation.z = t.translation.z ∧
    apply_movement 0 c m t = t := by
  obtain ⟨⟨tx, ty, tz⟩, tr⟩ := t
  simp only [apply_movement, Transform.rotate_z, Vec3.add, forward_vec,
    Transform.mk.injEq, Vec3.mk.injEq]
  norm_num

/-- Rust `f32` truncation toward zero (`trunc`), modelled on the reals. -/
noncomputable def trunc_r (x : ℝ) : ℝ := if 0 ≤ x then (⌊x⌋ : ℝ) else (⌈x⌉ : ℝ)

/-- Rust's `%` on floats: the remainder left by the truncated quotient. -/
noncomputable def rem_rust (x y : ℝ) : ℝ := x - y * trunc_r (x / y)

/-- Rust `f32::rem_euclid`: `%` followed by an `|rhs|` correction when the
remainder is negative (`glam::Vec2::rem_euclid` applies this component-wise). -/
noncomputable def rem_euclid (x y : ℝ) : ℝ :=
  if rem_rust x y < 0 then rem_rust x y + |y| else rem_rust x y

/-- For a positive modulus, Rust's `rem_euclid` is the fractional part of the
quotient scaled back by the modulus. -/
theorem rem_euclid_eq (x y : ℝ) (hy : 0 < y) :
    rem_euclid x y = y * Int.fract (x / y) := by
  have hy0 : y ≠ 0 := ne_of_gt hy
  rcases le_or_lt 0 (x / y) with ht | ht
  · have htr : trunc_r (x / y) = (⌊x / y⌋ : ℝ) := if_pos ht
    have hr : rem_rust x y = y * Int.fract (x / y) := by
      rw [rem_rust, htr, ← Int.self_sub_floor]
      field_simp
    rw [rem_euclid, hr, if_neg]
    exact not_lt.mpr (mul_nonneg hy.le (Int.fract_nonneg _))
  · have htr : trunc_r (x / y) = (⌈x / y⌉ : ℝ) := if_neg (not_le.mpr ht)
    by_cases hf : Int.fract (x / y) = 0
    · have hfl : (⌊x / y⌋ : ℝ) = x / y := by
        have := Int.self_sub_floor (x / y)
        rw [hf] at this
        linarith
      have hc : (⌈x / y⌉ : ℝ) = x / y := by
        rw [← hfl, Int.ceil_intCast]
      have hr : rem_rust x y = 0 := by
        rw [rem_rust, htr, hc]
        field_simp
      rw [rem_euclid, hr, if_neg (by norm_num), hf, mul_zero]
    · have hc : (⌈x / y⌉ : ℝ) = x / y + 1 - Int.fract (x / y) :=
        Int.ceil_eq_add_one_sub_fract hf
      have hr : rem_rust x y = y * (Int.fract (x / y) - 1) := by
        rw [rem_rust, htr, hc]
        field_simp
        ring
      have hneg : rem_rust x y < 0 := by
        rw [hr]
        have h1 : Int.fract (x / y) - 1 < 0 := by
          have := Int.fract_lt_one (x / y)
          linarith
        exact mul_neg_of_pos_of_neg hy h1
      rw [rem_euclid, if_pos hneg, hr, abs_of_pos hy]
      ring

/-- Rust `rem_euclid` with a positive modulus is nonnegative. -/
theorem rem_euclid_nonneg (x y : ℝ) (hy : 0 < y) : 0 ≤ rem_euclid x y := by
  rw [rem_euclid_eq x y hy]
  exact mul_nonneg hy.le (Int.fract_nonneg _)

/-- Rust `rem_euclid` with a positive modulus is below the modulus. -/
theorem rem_euclid_lt (x y : ℝ) (hy : 0 < y) : rem_euclid x y < y := by
  rw [rem_euclid_eq x y hy]
  calc y * Int.fract (x / y) < y * 1 :=
        (mul_lt_mul_left hy).mpr (Int.fract_lt_one _)
    _ = y := mul_one y

/-- Rust `rem_euclid` fixes inputs already inside `[0, y)`. -/
theorem rem_euclid_eq_self (x y : ℝ) (hy : 0 < y) (h0 : 0 ≤ x) (h1 : x < y) :
    rem_euclid x y = x := by
  rw [rem_euclid_eq x y hy, Int.fract_eq_self.mpr
    ⟨div_nonneg h0 hy.le, (div_lt_one hy).mpr h1⟩]
  field_simp

/-- The body of `wrap_within_window` (`src/game/movement.rs`) for one entity:
`size = window.size() + 50`, and the XY position becomes
`(position + size / 2).rem_euclid(size) - size / 2`, keeping `z`. -/
noncomputable def wrap_within_window (window : Vec2) (t : Transform) : Transform :=
  { t with translation :=
      ⟨rem_euclid (t.translation.x + (window.x + 50) / 2) (window.x + 50) - (window.x + 50) / 2,
       rem_euclid (t.translation.y + (window.y + 50) / 2) (window.y + 50) - (window.y + 50) / 2,
       t.translation.z⟩ }

/-- C6: after the clamp boundary step, the player's and every enemy's position
is component-wise within `±BOUNDS/2 = ±(600, 320)`, for every starting position
and every movement outcome. -/
theorem clamp_keeps_entities_in_bounds (dt : ℝ) (keys : KeyState) (ship : Player)
    (tp : Transform) (em : EnemyMove) (te : Transform) :
    (|(player_movement_update dt keys ship tp).translation.x| ≤ 600 ∧
      |(player_movement_update dt keys ship tp).translation.y| ≤ 320) ∧
    (|(enemy_movement_step dt em te).translation.x| ≤ 600 ∧
      |(enemy_movement_step dt em te).translation.y| ≤ 320) := by
  constructor
  · exact clamp_to_bounds_mem _
  · exact clamp_to_bounds_mem _

/-- A console line emitted by `collision_system` (`println!`). -/
inductive ConsoleLine where
  | healthLine (n : ℤ)
  | defeatedLine

/-- The literal text of each console line printed by `collision_system`. -/
def console_text : ConsoleLine → String
  | .healthLine n => "Player health: " ++ toString n
  | .defeatedLine => "Player defeated!"

/-- Outcome of one `collision_system` frame: the player's health after the
loop, the process exit status (`some 0` models `std::process::exit(0)`, `none`
means the frame ran to completion), and the console lines printed. -/
structure CollisionResult where
  health : ℤ
  exitStatus : Option ℤ
  output : List ConsoleLine

/-- The enemy loop of `collision_system` (`src/mymain.rs`): for each enemy, if
its Euclidean distance to the player is below `30.0`, subtract `10` from
health and print it; if health is then `≤ 0`, print the defeat line and exit
the process with status `0`, processing no further enemies. -/
noncomputable def collision_go (health : ℤ) (player_translation : Vec3) :
    List Vec3 → CollisionResult
  | [] => ⟨health, none, []⟩
  | enemy_translation :: rest =>
    if player_translation.distance enemy_translation < 30 then
      if health - 10 ≤ 0 then
        ⟨health - 10, some 0, [ConsoleLine.healthLine (health - 10), ConsoleLine.defeatedLine]⟩
      else
        let r := collision_go (health - 10) player_translation rest
        ⟨r.health, r.exitStatus, ConsoleLine.healthLine (health - 10) :: r.output⟩
    else collision_go health player_translation rest

/-- Number of enemies within collision range (`distance < 30`) of the player. -/
noncomputable def qualifying_count (player_translation : Vec3) : List Vec3 → ℕ
  | [] => 0
  | e :: rest =>
    if player_translation.distance e < 30 then qualifying_count player_translation rest + 1
    else qualifying_count player_translation rest

/-- Distance comparisons reduce to comparisons of squared distances. -/
theorem distance_lt_iff (a b : Vec3) (c : ℝ) (hc : 0 < c) :
    a.distance b < c ↔ (a.x - b.x) ^ 2 + (a.y - b.y) ^ 2 + (a.z - b.z) ^ 2 < c ^ 2 := by
  rw [Vec3.distance]
  exact Real.sqrt_lt' hc

/-- Bevy's `Query::single` / `Query::single_mut`, which panic unless exactly
one entity matches the query; `none` models the panic. -/
def query_single {α : Type} : List α → Option α
  | [a] => some a
  | _ => none

/-- A mapped single-entity query succeeds exactly when the entity list has
length one. -/
theorem query_single_map_isSome {α β : Type} (f : α → β) (l : List α) :
    ((query_single l).map f).isSome = true ↔ l.length = 1 := by
  match l with
  | [] => simp [query_single]
  | [a] => simp [query_single]
  | a :: b :: rest => simp [query_single]

/-- The whole `player_movement_system`, including its `query.single_mut()` on
the player query; `none` models the panic when the match is not unique. -/
noncomputable def player_movement_system_run (dt : ℝ) (keys : KeyState)
    (players : List (Player × Transform)) : Option Transform :=
  (query_single players).map fun pt => player_movement_update dt keys pt.1 pt.2

/-- The whole `collision_system`, including its `player_query.single_mut()`;
`none` models the panic when the player match is not unique. -/
noncomputable def collision_system_run (players : List (Health × Transform))
    (enemies : List Vec3) : Option CollisionResult :=
  (query_single players).map fun ht => collision_go ht.1.value ht.2.translation enemies

/-- Rust `f32::EPSILON`, the machine epsilon of `f32`, which is `2 ^ (-23)`. -/
noncomputable def f32_epsilon : ℝ := 1 / 2 ^ 23

/-- Rust `f32::copysign mag s`: the magnitude of `mag` with the sign of `s`
(reals have no `-0.0`, so the sign of `0` is positive, as for `+0.0`). -/
noncomputable def copysign (mag s : ℝ) : ℝ := if s < 0 then -|mag| else |mag|

/-- Rust `f32::clamp`. -/
noncomputable def rclamp (x lo hi : ℝ) : ℝ := min (max x lo) hi

/-- The `glam::Vec2::normalize` operation, which divides by the length; on a
zero-length vector the result is undefined (non-finite in `f32`), modelled by
`none`. -/
noncomputable def normalize (v : Vec2) : Option Vec2 :=
  if v.length = 0 then none else some ⟨v.x / v.length, v.y / v.length⟩

/-- The loop body of `rotate_to_player_system` (`src/mymain.rs`) after the
to-player direction has been normalized: early-out when the forward·to-player
dot product is within `f32::EPSILON` of `1.0`, otherwise rotate about `+Z` by
`-copysign(1, right·to_player) * min(rotation_speed * dt, acos(clamp(dot, -1, 1)))`. -/
noncomputable def rotate_to_player_core (dt : ℝ) (config : RotateToPlayer)
    (to_player : Vec2) (enemy : Transform) : Transform :=
  if |(forward_vec enemy.rotation).dot to_player - 1| < f32_epsilon then enemy
  else
    enemy.rotate_z
      (-copysign 1 ((right_vec enemy.rotation).dot to_player) *
        min (config.rotation_speed * dt)
          (Real.arccos (rclamp ((forward_vec enemy.rotation).dot to_player) (-1) 1)))

/-- One per-enemy update of `rotate_to_player_system`, including the unguarded
normalization of the to-player vector. -/
noncomputable def rotate_to_player_update (dt : ℝ) (config : RotateToPlayer)
    (player_translation : Vec2) (enemy : Transform) : Option Transform :=
  (normalize (player_translation.sub enemy.translation.xy)).map
    fun to_player => rotate_to_player_core dt config to_player enemy

/-- The angle of `Quat::from_rotation_arc(Vec3::Y, v.extend(0))` about `+Z` for
a unit direction `v`: the rotation taking the canonical forward axis onto `v`. -/
noncomputable def rotation_arc_from_y (v : Vec2) : ℝ := Complex.arg ⟨v.y, -v.x⟩

/-- One per-enemy update of `snap_to_player_system` (`src/mymain.rs`): set the
orientation directly to face the player, with the same unguarded normalization. -/
noncomputable def snap_to_player_update (player_translation : Vec2)
    (enemy : Transform) : Option Transform :=
  (normalize (player_translation.sub enemy.translation.xy)).map
    fun to_player => { enemy with rotation := rotation_arc_from_y to_player }

/-- Normalization computed from a known length witness. -/
theorem normalize_eq_of_sq (v : Vec2) (L : ℝ) (hL : 0 < L)
    (h : v.x ^ 2 + v.y ^ 2 = L ^ 2) : normalize v = some ⟨v.x / L, v.y / L⟩ := by
  have hlen : v.length = L := by
    rw [Vec2.length, h, Real.sqrt_sq hL.le]
  rw [normalize, hlen, if_neg (ne_of_gt hL)]

/-- A successfully normalized vector is a unit vector. -/
theorem normalize_unit {v u : Vec2} (h : normalize v = some u) :
    u.x ^ 2 + u.y ^ 2 = 1 := by
  rw [normalize] at h
  by_cases h0 : v.length = 0
  · rw [if_pos h0] at h
    exact absurd h (by simp)
  · rw [if_neg h0] at h
    injection h with h'
    have hsq : v.length ^ 2 = v.x ^ 2 + v.y ^ 2 := Real.sq_sqrt (by positivity)
    rw [← h']
    field_simp
    linarith [hsq]

/-- The forward vector is a unit vector. -/
theorem forward_vec_unit (r : ℝ) :
    (forward_vec r).x ^ 2 + (forward_vec r).y ^ 2 = 1 := by
  simp only [forward_vec, neg_sq]
  exact Real.sin_sq_add_cos_sq r

/-- Cauchy-Schwarz for 2D unit vectors: the dot product lies in `[-1, 1]`. -/
theorem dot_bounds (a b : Vec2) (ha : a.x ^ 2 + a.y ^ 2 = 1)
    (hb : b.x ^ 2 + b.y ^ 2 = 1) : -1 ≤ a.dot b ∧ a.dot b ≤ 1 := by
  rw [Vec2.dot]
  constructor
  · nlinarith [sq_nonneg (a.x + b.x), sq_nonneg (a.y + b.y)]
  · nlinarith [sq_nonneg (a.x - b.x), sq_nonneg (a.y - b.y)]

/-- The negated copysign of magnitude one has absolute value one. -/
theorem abs_neg_copysign_one (s : ℝ) : |(-copysign 1 s)| = 1 := by
  rw [copysign]
  split <;> simp

/-- C5: with a nonnegative viewport size (so the wrap size `viewport + 50` is
positive), one application of the wrap boundary maps each coordinate into
`[-half_size, half_size)` where `half_size` is half the wrap size, and applying
the wrap a second time leaves the already-wrapped transform unchanged. -/
theorem wrap_bounds_and_idempotent (window : Vec2) (t : Transform)
    (hx : 0 ≤ window.x) (hy : 0 ≤ window.y) :
    (-((window.x + 50) / 2) ≤ (wrap_within_window window t).translation.x ∧
      (wrap_within_window window t).translation.x < (window.x + 50) / 2) ∧
    (-((window.y + 50) / 2) ≤ (wrap_within_window window t).translation.y ∧
      (wrap_within_window window t).translation.y < (window.y + 50) / 2) ∧
    wrap_within_window window (wrap_within_window window t) = wrap_within_window window t := by
  have hsx : (0 : ℝ) < window.x + 50 := by linarith
  have hsy : (0 : ℝ) < window.y + 50 := by linarith
  refine ⟨⟨?_, ?_⟩, ⟨?_, ?_⟩, ?_⟩
  · have := rem_euclid_nonneg (t.translation.x + (window.x + 50) / 2) (window.x + 50) hsx
    simp only [wrap_within_window]
    linarith
  · have := rem_euclid_lt (t.translation.x + (window.x + 50) / 2) (window.x + 50) hsx
    simp only [wrap_within_window]
    linarith
  · have := rem_euclid_nonneg (t.translation.y + (window.y + 50) / 2) (window.y + 50) hsy
    simp only [wrap_within_window]
    linarith
  · have := rem_euclid_lt (t.translation.y + (window.y + 50) / 2) (window.y + 50) hsy
    simp only [wrap_within_window]
    linarith
  · simp only [wrap_within_window, Transform.mk.injEq, Vec3.mk.injEq]
    rw [sub_add_cancel, sub_add_cancel,
      rem_euclid_eq_self _ _ hsx (rem_euclid_nonneg _ _ hsx) (rem_euclid_lt _ _ hsx),
      rem_euclid_eq_self _ _ hsy (rem_euclid_nonneg _ _ hsy) (rem_euclid_lt _ _ hsy)]
    simp

/-- Witness for C5: the wrap theorem instantiated at a concrete viewport of
size `(750, 450)` and an entity placed far outside the play area. -/
theorem wrap_bounds_and_idempotent_witness :
    (0 : ℝ) ≤ 750 ∧ (0 : ℝ) ≤ 450 ∧
    ((-(((750 : ℝ) + 50) / 2) ≤
        (wrap_within_window ⟨750, 450⟩ ⟨⟨10000, -3000, 0⟩, 0⟩).translation.x ∧
      (wrap_within_window ⟨750, 450⟩ ⟨⟨10000, -3000, 0⟩, 0⟩).translation.x <
        ((750 : ℝ) + 50) / 2) ∧
    (-(((450 : ℝ) + 50) / 2) ≤
        (wrap_within_window ⟨750, 450⟩ ⟨⟨10000, -3000, 0⟩, 0⟩).translation.y ∧
      (wrap_within_window ⟨750, 450⟩ ⟨⟨10000, -3000, 0⟩, 0⟩).translation.y <
        ((450 : ℝ) + 50) / 2) ∧
    wrap_within_window ⟨750, 450⟩ (wrap_within_window ⟨750, 450⟩ ⟨⟨10000, -3000, 0⟩, 0⟩) =
      wrap_within_window ⟨750, 450⟩ ⟨⟨10000, -3000, 0⟩, 0⟩) :=
  ⟨by norm_num, by norm_num,
    wrap_bounds_and_idempotent ⟨750, 450⟩ ⟨⟨10000, -3000, 0⟩, 0⟩ (by norm_num) (by norm_num)⟩

/-- C2: in one collision frame, every enemy strictly closer than `30.0` to the
player independently subtracts `10` from health, with one health report per
qualifying enemy and no deduplication, so `k` qualifying enemies cost `10 * k`
— provided the accumulated damage does not trigger termination. -/
theorem collision_damage_stacks (h : ℤ) (p : Vec3) (enemies : List Vec3)
    (hpos : 0 < h - 10 * (qualifying_count p enemies : ℤ)) :
    (collision_go h p enemies).health = h - 10 * (qualifying_count p enemies : ℤ) ∧
    (collision_go h p enemies).exitStatus = none ∧
    (collision_go h p enemies).output.length = qualifying_count p enemies := by
  induction enemies generalizing h with
  | nil => simp [collision_go, qualifying_count]
  | cons e rest ih =>
    by_cases hd : p.distance e < 30
    · have hq : (qualifying_count p (e :: rest) : ℤ) = (qualifying_count p rest : ℤ) + 1 := by
        simp [qualifying_count, hd]
      have hknn : (0 : ℤ) ≤ (qualifying_count p rest : ℤ) := Int.natCast_nonneg _
      rw [hq] at hpos
      have h10 : ¬(h - 10 ≤ 0) := by omega
      have hpos' : 0 < h - 10 - 10 * (qualifying_count p rest : ℤ) := by omega
      obtain ⟨ih1, ih2, ih3⟩ := ih (h - 10) hpos'
      refine ⟨?_, ?_, ?_⟩
      · simp only [collision_go, hd, if_true, h10, if_false]
        rw [ih1, hq]
        ring
      · simp only [collision_go, hd, if_true, h10, if_false]
        exact ih2
      · simp only [collision_go, hd, if_true, h10, if_false, List.length_cons, ih3]
        simp [qualifying_count, hd]
    · have hq : qualifying_count p (e :: rest) = qualifying_count p rest := by
        simp [qualifying_count, hd]
      rw [hq] at hpos
      simp only [collision_go, hd, if_false, hq]
      exact ih h hpos

/-- Witness for C2: a player at the origin with `100` health among three
enemies, two of which are in collision range, ends the frame at `80` health
with two health reports and no termination. -/
theorem collision_damage_stacks_witness :
    qualifying_count ⟨0, 0, 0⟩ [⟨10, 0, 0⟩, ⟨200, 0, 0⟩, ⟨0, 20, 0⟩] = 2 ∧
    0 < (100 : ℤ) -
      10 * (qualifying_count ⟨0, 0, 0⟩ [⟨10, 0, 0⟩, ⟨200, 0, 0⟩, ⟨0, 20, 0⟩] : ℤ) ∧
    ((collision_go 100 ⟨0, 0, 0⟩ [⟨10, 0, 0⟩, ⟨200, 0, 0⟩, ⟨0, 20, 0⟩]).health =
        100 - 10 * (qualifying_count ⟨0, 0, 0⟩ [⟨10, 0, 0⟩, ⟨200, 0, 0⟩, ⟨0, 20, 0⟩] : ℤ) ∧
      (collision_go 100 ⟨0, 0, 0⟩ [⟨10, 0, 0⟩, ⟨200, 0, 0⟩, ⟨0, 20, 0⟩]).exitStatus = none ∧
      (collision_go 100 ⟨0, 0, 0⟩ [⟨10, 0, 0⟩, ⟨200, 0, 0⟩, ⟨0, 20, 0⟩]).output.length =
        qualifying_count ⟨0, 0, 0⟩ [⟨10, 0, 0⟩, ⟨200, 0, 0⟩, ⟨0, 20, 0⟩]) := by
  have hd1 : Vec3.distance ⟨0, 0, 0⟩ ⟨10, 0, 0⟩ < 30 := by
    rw [distance_lt_iff _ _ _ (by norm_num)]
    norm_num
  have hd2 : ¬Vec3.distance ⟨0, 0, 0⟩ ⟨200, 0, 0⟩ < 30 := by
    rw [distance_lt_iff _ _ _ (by norm_num)]
    norm_num
  have hd3 : Vec3.distance ⟨0, 0, 0⟩ ⟨0, 20, 0⟩ < 30 := by
    rw [distance_lt_iff _ _ _ (by norm_num)]
    norm_num
  have hq : qualifying_count ⟨0, 0, 0⟩ [⟨10, 0, 0⟩, ⟨200, 0, 0⟩, ⟨0, 20, 0⟩] = 2 := by
    simp [qualifying_count, hd1, hd2, hd3]
  exact ⟨hq, by rw [hq]; norm_num,
    collision_damage_stacks 100 ⟨0, 0, 0⟩ [⟨10, 0, 0⟩, ⟨200, 0, 0⟩, ⟨0, 20, 0⟩]
      (by rw [hq]; norm_num)⟩

/-- C3: when a hit drops health to zero or below, the system prints the new
health line, then the literal defeat line, and exits with status `0`, applying
no damage for the remaining enemies of the frame; a non-fatal hit prints the
new health line and continues with the rest of the enemies. -/
theorem collision_defeat_terminates (h : ℤ) (p e : Vec3) (rest : List Vec3)
    (hhit : p.distance e < 30) :
    console_text ConsoleLine.defeatedLine = "Player defeated!" ∧
    console_text (ConsoleLine.healthLine (h - 10)) = "Player health: " ++ toString (h - 10) ∧
    (h - 10 ≤ 0 →
      collision_go h p (e :: rest) =
        ⟨h - 10, some 0, [ConsoleLine.healthLine (h - 10), ConsoleLine.defeatedLine]⟩) ∧
    (0 < h - 10 →
      collision_go h p (e :: rest) =
        ⟨(collision_go (h - 10) p rest).health, (collision_go (h - 10) p rest).exitStatus,
          ConsoleLine.healthLine (h - 10) :: (collision_go (h - 10) p rest).output⟩) := by
  refine ⟨rfl, rfl, ?_, ?_⟩
  · intro hle
    simp [collision_go, hhit, hle]
  · intro hgt
    have h10 : ¬(h - 10 ≤ 0) := by omega
    simp [collision_go, hhit, h10]

/-- Witness for C3: a player with `10` health colliding with an enemy at its
own position is defeated, the process exits with status `0`, and the second
coincident enemy of the frame is never processed. -/
theorem collision_defeat_terminates_witness :
    Vec3.distance ⟨0, 0, 0⟩ ⟨0, 0, 0⟩ < 30 ∧
    ((10 : ℤ) - 10 ≤ 0 →
      collision_go 10 ⟨0, 0, 0⟩ [⟨0, 0, 0⟩, ⟨0, 0, 0⟩] =
        ⟨(10 : ℤ) - 10, some 0,
          [ConsoleLine.healthLine ((10 : ℤ) - 10), ConsoleLine.defeatedLine]⟩) := by
  have hd : Vec3.distance ⟨0, 0, 0⟩ ⟨0, 0, 0⟩ < 30 := by
    rw [distance_lt_iff _ _ _ (by norm_num)]
    norm_num
  exact ⟨hd, (collision_defeat_terminates 10 ⟨0, 0, 0⟩ ⟨0, 0, 0⟩ [⟨0, 0, 0⟩] hd).2.2.1⟩

/-- C9: the single-match player queries in the player-movement and collision
systems succeed exactly when one player entity exists; with zero or several
player entities the systems panic (modelled by `none`). -/
theorem single_entity_queries (dt : ℝ) (keys : KeyState)
    (players : List (Player × Transform)) (hplayers : List (Health × Transform))
    (enemies : List Vec3) :
    ((player_movement_system_run dt keys players).isSome = true ↔ players.length = 1) ∧
    ((collision_system_run hplayers enemies).isSome = true ↔ hplayers.length = 1) := by
  exact ⟨query_single_map_isSome _ players, query_single_map_isSome _ hplayers⟩

/-- Bevy `Timer` in `TimerMode::Once`, as used by `StepSfx`: a duration and an
elapsed time (`std::time::Duration` modelled as seconds in `ℝ`). Per Bevy's
documented behavior, the timer is finished once the elapsed time has reached
the duration, and a once-timer's elapsed time saturates at the duration. -/
structure Timer where
  duration : ℝ
  elapsed : ℝ

/-- Bevy `Timer::new`, starting with zero elapsed time. -/
def Timer.new (duration : ℝ) : Timer := ⟨duration, 0⟩

/-- Bevy `Timer::set_elapsed`. -/
def Timer.set_elapsed (t : Timer) (e : ℝ) : Timer := { t with elapsed := e }

/-- Bevy `Timer::tick` for a once-timer: elapsed time advances by the frame
delta, saturating at the duration. -/
noncomputable def Timer.tick (t : Timer) (delta : ℝ) : Timer :=
  { t with elapsed := min (t.elapsed + delta) t.duration }

/-- Bevy `Timer::finished` for a once-timer: the elapsed time has reached the
duration. -/
def Timer.finished (t : Timer) : Prop := t.duration ≤ t.elapsed

/-- Bevy `Timer::reset`: elapsed time back to zero. -/
def Timer.reset (t : Timer) : Timer := { t with elapsed := 0 }

/-- The `StepSfx` component (`src/game/movement.rs`). -/
structure StepSfx where
  cooldown_timer : Timer

/-- The `StepSfx::new` constructor (`src/game/movement.rs`): build a once-timer
for the cooldown and preset its elapsed time to the full cooldown. -/
def StepSfx.new (cooldown : ℝ) : StepSfx :=
  ⟨(Timer.new cooldown).set_elapsed cooldown⟩

/-- The `tick_step_sfx` system (`src/game/movement.rs`) for one entity: tick
the cooldown timer by the frame delta (it runs in the `TickTimers` set, before
`trigger_step_sfx` in the `Update` set). -/
noncomputable def tick_step_sfx (delta : ℝ) (s : StepSfx) : StepSfx :=
  ⟨s.cooldown_timer.tick delta⟩

/-- The `trigger_step_sfx` system (`src/game/movement.rs`) for one entity: if
the cooldown has finished and the movement intent is nonzero, reset the
cooldown and trigger the step cue; the boolean records whether `Sfx::Step`
fired. -/
noncomputable def trigger_step_sfx (controller : MovementController) (s : StepSfx) :
    StepSfx × Bool :=
  if s.cooldown_timer.finished ∧ controller.movement_intent ≠ 0 then
    (⟨s.cooldown_timer.reset⟩, true)
  else (s, false)

/-- C10: a freshly constructed `StepSfx` has its elapsed time preset to the
full cooldown, so the timer is already finished at creation, and on any first
frame with nonnegative delta and nonzero movement intent the step cue fires
immediately, with no initial cooldown wait. -/
theorem step_sfx_fires_immediately (cooldown dt : ℝ) (controller : MovementController)
    (hdt : 0 ≤ dt) (hintent : controller.movement_intent ≠ 0) :
    (StepSfx.new cooldown).cooldown_timer.elapsed = cooldown ∧
    (StepSfx.new cooldown).cooldown_timer.finished ∧
    (trigger_step_sfx controller (tick_step_sfx dt (StepSfx.new cooldown))).2 = true := by
  refine ⟨rfl, le_refl _, ?_⟩
  have hfin : (tick_step_sfx dt (StepSfx.new cooldown)).cooldown_timer.finished := by
    simp only [tick_step_sfx, Timer.tick, StepSfx.new, Timer.new, Timer.set_elapsed,
      Timer.finished]
    exact le_min (by linarith) (le_refl _)
  rw [trigger_step_sfx, if_pos ⟨hfin, hintent⟩]

/-- Witness for C10: cooldown `1`, frame delta `0`, movement intent `1`: the
cue fires on the very first frame. -/
theorem step_sfx_fires_immediately_witness :
    (0 : ℝ) ≤ (0 : ℝ) ∧ (MovementController.mk 1 0).movement_intent ≠ 0 ∧
    ((StepSfx.new 1).cooldown_timer.elapsed = 1 ∧
      (StepSfx.new 1).cooldown_timer.finished ∧
      (trigger_step_sfx ⟨1, 0⟩ (tick_step_sfx 0 (StepSfx.new 1))).2 = true) :=
  ⟨le_refl 0, by norm_num,
    step_sfx_fires_immediately 1 0 ⟨1, 0⟩ (le_refl 0) (by norm_num)⟩

/-- Counterexample to C1 as stated: the claim quantifies over every rotation
speed, but with rotation speed `-7`, `dt = 1`, an enemy at the origin facing
`+Y`, and the player in direction `+X` (relative angle `π/2`, inside
`(0°, 180°]`), the single update rotates the enemy by `7` radians — past the
`π/2` radians that exactly face the player, and not `min(speed * dt, angle)`. -/
theorem rotate_overshoot_counterexample :
    rotate_to_player_update 1 ⟨-7⟩ ⟨1, 0⟩ ⟨⟨0, 0, 0⟩, 0⟩ = some ⟨⟨0, 0, 0⟩, 7⟩ ∧
    0 < Real.arccos ((forward_vec 0).dot ⟨1, 0⟩) ∧
    Real.arccos ((forward_vec 0).dot ⟨1, 0⟩) ≤ Real.pi ∧
    Real.arccos ((forward_vec 0).dot ⟨1, 0⟩) < |(7 : ℝ) - 0| := by
  have hdot : (forward_vec 0).dot ⟨1, 0⟩ = 0 := by
    simp [forward_vec, Vec2.dot]
  have harc : Real.arccos ((forward_vec 0).dot ⟨1, 0⟩) = Real.pi / 2 := by
    rw [hdot, Real.arccos_zero]
  refine ⟨?_, ?_, ?_, ?_⟩
  · have hsub : Vec2.sub ⟨1, 0⟩ (Vec3.xy ⟨0, 0, 0⟩) = ⟨1, 0⟩ := by
      simp [Vec2.sub, Vec3.xy]
    have hnorm : normalize (⟨1, 0⟩ : Vec2) = some ⟨1, 0⟩ := by
      have h := normalize_eq_of_sq ⟨1, 0⟩ 1 (by norm_num) (by norm_num)
      simpa using h
    have hneps : ¬(|(forward_vec (0 : ℝ)).dot ⟨1, 0⟩ - 1| < f32_epsilon) := by
      rw [hdot, zero_sub, abs_neg, abs_one, f32_epsilon]
      norm_num
    have hrd : (right_vec (0 : ℝ)).dot ⟨1, 0⟩ = 1 := by
      simp [right_vec, Vec2.dot]
    have hcs : copysign 1 ((right_vec (0 : ℝ)).dot ⟨1, 0⟩) = 1 := by
      rw [hrd, copysign, if_neg (by norm_num), abs_one]
    have hclamp : rclamp ((forward_vec (0 : ℝ)).dot ⟨1, 0⟩) (-1) 1 = 0 := by
      rw [hdot, rclamp]
      norm_num
    have hmin : min ((-7 : ℝ) * 1) (Real.arccos (0 : ℝ)) = -7 := by
      rw [Real.arccos_zero]
      have := Real.pi_pos
      rw [min_eq_left (by linarith)]
      norm_num
    rw [rotate_to_player_update, hsub, hnorm, Option.map_some']
    simp only [rotate_to_player_core]
    rw [if_neg hneps, hcs, hclamp]
    simp only [Transform.rotate_z]
    rw [hmin]
    norm_num
  · rw [harc]
    linarith [Real.pi_pos]
  · exact Real.arccos_le_pi _
  · rw [harc]
    have := Real.pi_lt_d2
    rw [show |(7 : ℝ) - 0| = 7 by norm_num]
    linarith

/-- C1 (amended): for nonnegative rotation speed and `dt`, whenever the
normalization and the update succeed, a single rate-limited steering call
rotates the enemy by at most the angle to the player, and by exactly
`min(rotation_speed * dt, angle)` whenever the forward·to-player dot product is
not within `f32::EPSILON` of `1.0` (in the epsilon band the update is a no-op). -/
theorem rotate_never_overshoots (dt : ℝ) (config : RotateToPlayer)
    (player_translation : Vec2) (t t2 : Transform) (u : Vec2)
    (hspeed : 0 ≤ config.rotation_speed) (hdt : 0 ≤ dt)
    (hu : normalize (player_translation.sub t.translation.xy) = some u)
    (hupd : rotate_to_player_update dt config player_translation t = some t2) :
    |t2.rotation - t.rotation| ≤ Real.arccos ((forward_vec t.rotation).dot u) ∧
    (f32_epsilon ≤ |(forward_vec t.rotation).dot u - 1| →
      |t2.rotation - t.rotation| =
        min (config.rotation_speed * dt) (Real.arccos ((forward_vec t.rotation).dot u))) := by
  rw [rotate_to_player_update, hu, Option.map_some'] at hupd
  injection hupd with ht2
  subst ht2
  obtain ⟨hd1, hd2⟩ := dot_bounds _ _ (forward_vec_unit t.rotation) (normalize_unit hu)
  by_cases heps : |(forward_vec t.rotation).dot u - 1| < f32_epsilon
  · rw [rotate_to_player_core, if_pos heps]
    constructor
    · simpa using Real.arccos_nonneg _
    · intro hcon
      exact absurd heps (not_lt.mpr hcon)
  · have hclamp : rclamp ((forward_vec t.rotation).dot u) (-1) 1 =
        (forward_vec t.rotation).dot u := by
      rw [rclamp, max_eq_left hd1, min_eq_left hd2]
    have hm0 : 0 ≤ min (config.rotation_speed * dt)
        (Real.arccos ((forward_vec t.rotation).dot u)) :=
      le_min (mul_nonneg hspeed hdt) (Real.arccos_nonneg _)
    rw [rotate_to_player_core, if_neg heps, hclamp]
    simp only [Transform.rotate_z, add_sub_cancel_left]
    rw [abs_mul, abs_neg_copysign_one, one_mul, abs_of_nonneg hm0]
    exact ⟨min_le_right _ _, fun _ => rfl⟩

/-- Witness for the amended C1: an enemy at the origin facing `+Y`, the player
in direction `-Y` (relative angle `π`), rotation speed `1` and `dt = 1`: the
update rotates by exactly `min(1 * 1, π) = 1` radian, not past the player. -/
theorem rotate_never_overshoots_witness :
    (0 : ℝ) ≤ (1 : ℝ) ∧ (0 : ℝ) ≤ (1 : ℝ) ∧
    normalize (Vec2.sub ⟨0, -1⟩ (Vec3.xy ⟨0, 0, 0⟩)) = some ⟨0, -1⟩ ∧
    rotate_to_player_update 1 ⟨1⟩ ⟨0, -1⟩ ⟨⟨0, 0, 0⟩, 0⟩ = some ⟨⟨0, 0, 0⟩, -1⟩ ∧
    (|(-1 : ℝ) - 0| ≤ Real.arccos ((forward_vec 0).dot ⟨0, -1⟩) ∧
      (f32_epsilon ≤ |(forward_vec 0).dot ⟨0, -1⟩ - 1| →
        |(-1 : ℝ) - 0| = min ((1 : ℝ) * 1)
          (Real.arccos ((forward_vec 0).dot ⟨0, -1⟩)))) := by
  have hdot : (forward_vec 0).dot ⟨0, -1⟩ = -1 := by
    simp [forward_vec, Vec2.dot]
  have hsub : Vec2.sub ⟨0, -1⟩ (Vec3.xy ⟨0, 0, 0⟩) = ⟨0, -1⟩ := by
    simp [Vec2.sub, Vec3.xy]
  have hnorm : normalize (⟨0, -1⟩ : Vec2) = some ⟨0, -1⟩ := by
    have h := normalize_eq_of_sq ⟨0, -1⟩ 1 (by norm_num) (by norm_num)
    simpa using h
  have hu : normalize (Vec2.sub ⟨0, -1⟩ (Vec3.xy ⟨0, 0, 0⟩)) = some ⟨0, -1⟩ := by
    rw [hsub, hnorm]
  have hneps : ¬(|(forward_vec (0 : ℝ)).dot ⟨0, -1⟩ - 1| < f32_epsilon) := by
    rw [hdot, f32_epsilon, show |(-1 : ℝ) - 1| = 2 by rw [abs_of_nonpos] <;> norm_num]
    norm_num
  have hrd : (right_vec (0 : ℝ)).dot ⟨0, -1⟩ = 0 := by
    simp [right_vec, Vec2.dot]
  have hcs : copysign 1 ((right_vec (0 : ℝ)).dot ⟨0, -1⟩) = 1 := by
    rw [hrd, copysign, if_neg (by norm_num), abs_one]
  have hclamp : rclamp ((forward_vec (0 : ℝ)).dot ⟨0, -1⟩) (-1) 1 = -1 := by
    rw [hdot, rclamp]
    norm_num
  have hmin : min ((1 : ℝ) * 1) (Real.arccos (-1 : ℝ)) = 1 := by
    rw [Real.arccos_neg_one]
    have := Real.pi_gt_three
    rw [min_eq_left (by linarith)]
    norm_num
  have hupd : rotate_to_player_update 1 ⟨1⟩ ⟨0, -1⟩ ⟨⟨0, 0, 0⟩, 0⟩ =
      some ⟨⟨0, 0, 0⟩, -1⟩ := by
    rw [rotate_to_player_update, hsub, hnorm, Option.map_some']
    simp only [rotate_to_player_core]
    rw [if_neg hneps, hcs, hclamp]
    simp only [Transform.rotate_z]
    rw [hmin]
    norm_num
  exact ⟨by norm_num, by norm_num, hu, hupd,
    rotate_never_overshoots 1 ⟨1⟩ ⟨0, -1⟩ ⟨⟨0, 0, 0⟩, 0⟩ ⟨⟨0, 0, 0⟩, -1⟩ ⟨0, -1⟩
      (by norm_num) (by norm_num) hu hupd⟩

/-- C7: when the enemy already faces the player — the forward·to-player dot
product is within `f32::EPSILON` of `1.0` — a rate-limited steering call
leaves the whole transform unchanged. -/
theorem rotate_already_facing_noop (dt : ℝ) (config : RotateToPlayer)
    (player_translation : Vec2) (t : Transform) (u : Vec2)
    (hu : normalize (player_translation.sub t.translation.xy) = some u)
    (heps : |(forward_vec t.rotation).dot u - 1| < f32_epsilon) :
    rotate_to_player_update dt config player_translation t = some t := by
  rw [rotate_to_player_update, hu, Option.map_some', rotate_to_player_core, if_pos heps]

/-- Witness for C7: an enemy at the origin facing `+Y` with the player straight
ahead at `(0, 2)`: the dot product is exactly `1` and the update returns the
transform unchanged. -/
theorem rotate_already_facing_noop_witness :
    normalize (Vec2.sub ⟨0, 2⟩ (Vec3.xy ⟨0, 0, 0⟩)) = some ⟨0, 1⟩ ∧
    |(forward_vec 0).dot ⟨0, 1⟩ - 1| < f32_epsilon ∧
    rotate_to_player_update 7 ⟨5⟩ ⟨0, 2⟩ ⟨⟨0, 0, 0⟩, 0⟩ = some ⟨⟨0, 0, 0⟩, 0⟩ := by
  have hsub : Vec2.sub ⟨0, 2⟩ (Vec3.xy ⟨0, 0, 0⟩) = ⟨0, 2⟩ := by
    simp [Vec2.sub, Vec3.xy]
  have hnorm : normalize (⟨0, 2⟩ : Vec2) = some ⟨0, 1⟩ := by
    have h := normalize_eq_of_sq ⟨0, 2⟩ 2 (by norm_num) (by norm_num)
    simpa using h
  have hu : normalize (Vec2.sub ⟨0, 2⟩ (Vec3.xy ⟨0, 0, 0⟩)) = some ⟨0, 1⟩ := by
    rw [hsub, hnorm]
  have heps : |(forward_vec 0).dot ⟨0, 1⟩ - 1| < f32_epsilon := by
    have hdot : (forward_vec 0).dot ⟨0, 1⟩ = 1 := by
      simp [forward_vec, Vec2.dot]
    rw [hdot, sub_self, abs_zero, f32_epsilon]
    norm_num
  exact ⟨hu, heps, rotate_already_facing_noop 7 ⟨5⟩ ⟨0, 2⟩ ⟨⟨0, 0, 0⟩, 0⟩ ⟨0, 1⟩ hu heps⟩

/-- C8: when the enemy's 2D position coincides with the player's, the to-player
vector has zero length, its normalization is undefined (`none`), and both the
snap and the rate-limited steering updates propagate the undefined value —
neither guards the zero-length case. -/
theorem zero_length_to_player_unguarded (dt : ℝ) (config : RotateToPlayer)
    (player_translation : Vec2) (t : Transform)
    (hco : t.translation.xy = player_translation) :
    normalize (player_translation.sub t.translation.xy) = none ∧
    snap_to_player_update player_translation t = none ∧
    rotate_to_player_update dt config player_translation t = none := by
  have hnorm : normalize (player_translation.sub t.translation.xy) = none := by
    rw [hco]
    have hsub : player_translation.sub player_translation = ⟨0, 0⟩ := by
      simp [Vec2.sub]
    rw [hsub, normalize, if_pos]
    rw [Vec2.length]
    norm_num
  exact ⟨hnorm, by rw [snap_to_player_update, hnorm]; rfl,
    by rw [rotate_to_player_update, hnorm]; rfl⟩

/-- Witness for C8: an enemy exactly at the player's position `(3, 4)`; both
steering updates hit the undefined normalization. -/
theorem zero_length_to_player_unguarded_witness :
    Vec3.xy ⟨3, 4, 0⟩ = (⟨3, 4⟩ : Vec2) ∧
    (normalize (Vec2.sub ⟨3, 4⟩ (Vec3.xy ⟨3, 4, 0⟩)) = none ∧
      snap_to_player_update ⟨3, 4⟩ ⟨⟨3, 4, 0⟩, 0⟩ = none ∧
      rotate_to_player_update 1 ⟨2⟩ ⟨3, 4⟩ ⟨⟨3, 4, 0⟩, 0⟩ = none) :=
  ⟨rfl, zero_length_to_player_unguarded 1 ⟨2⟩ ⟨3, 4⟩ ⟨⟨3, 4, 0⟩, 0⟩ rfl⟩

end BevyGame
